import Mathlib

set_option maxRecDepth 100000

/-
Verification of the record-file update protocol of the student management
system (src/main.c): counter load/store, field update, average recompute,
and the remove/rename file-replacement sequence.

File contents are modelled as lists of characters.  Numeric values are
modelled at two layers: an exact-fraction layer (`Frac`), sufficient for
the structural properties (which line is rewritten, what is appended,
what fails), and a faithful IEEE-754 binary32 layer (`F32`) for the
value actually written by the average recompute — decimal-to-float
parsing, each addition, the division by `4.0f` and the `%.2f` print all
round to nearest with ties to even, as the program's `float` arithmetic
does under `FLT_EVAL_METHOD 0`.
-/

/-- Whitespace characters in the sense of C `isspace`, as used by the
whitespace directives of `scanf` formats. -/
def isWSChar (c : Char) : Bool :=
  c = ' ' || c = '\t' || c = '\n' || c = '\r' ||
  c = Char.ofNat 11 || c = Char.ofNat 12

/-- Decimal digit test, as used by `scanf` numeric conversions. -/
def isDigitChar (c : Char) : Bool := '0' ≤ c && c ≤ '9'

/-- Numeric value of a digit character. -/
def digVal (c : Char) : ℕ := c.toNat - 48

/-- Character for a single decimal digit. -/
def digitChar (d : ℕ) : Char := Char.ofNat (48 + d)

/-- Value of a digit string read most-significant first, as accumulated by
the usual decimal scan. -/
def digitsVal (ds : List Char) : ℕ := ds.foldl (fun a c => a * 10 + digVal c) 0

/-- Decimal digits of `n`, most significant first, produced with explicit
fuel so the definition is structurally recursive.  Empty for `n = 0`. -/
def natDecAux : ℕ → ℕ → List Char
  | 0, _ => []
  | fuel + 1, n => if n = 0 then [] else natDecAux fuel (n / 10) ++ [digitChar (n % 10)]

/-- Decimal rendering of a natural number, the semantics of `printf "%d"`
for nonnegative values. -/
def natToDec (n : ℕ) : List Char := if n = 0 then ['0'] else natDecAux n n

/-- Decimal rendering of an integer, the semantics of `printf "%d"`. -/
def intToDec (i : ℤ) : List Char :=
  if i < 0 then '-' :: natToDec i.natAbs else natToDec i.natAbs

/-- An exact fraction: numerator and (by construction positive)
denominator, kept unreduced so that all arithmetic on it is plain integer
arithmetic.  Used to model C `float` values exactly. -/
structure Frac where
  num : ℤ
  den : ℕ
  deriving DecidableEq

/-- Interpretation of a `Frac` as a rational number. -/
def Frac.toRat (f : Frac) : ℚ := (f.num : ℚ) / (f.den : ℚ)

/-- Sum of two fractions. -/
def Frac.add (a b : Frac) : Frac := ⟨a.num * b.den + b.num * a.den, a.den * b.den⟩

/-- Division of a fraction by a positive natural number; models the
division by `4.0f` in the average computation. -/
def Frac.divNat (a : Frac) (k : ℕ) : Frac := ⟨a.num, a.den * k⟩

/-- Scaling by a power of ten, used for the exponent part of `%f` input. -/
def Frac.scale10 (a : Frac) (sgnNeg : Bool) (e : ℕ) : Frac :=
  if sgnNeg then ⟨a.num, a.den * 10 ^ e⟩ else ⟨a.num * 10 ^ e, a.den⟩

/-- Two-decimal digit pair for a value below 100. -/
def twoDigits (k : ℕ) : List Char := [digitChar (k / 10), digitChar (k % 10)]

/-- Two-decimal rendering of an exact fraction, round-half-up on the
magnitude.  This is the exact-value layer used by the structural
theorems; the program's actual `%.2f` conversion — of an IEEE binary32
value, with decimal ties to even — is `fmt2F32` below. -/
def fmt2 (q : Frac) : List Char :=
  let m : ℕ := (2 * q.num.natAbs * 100 + q.den) / (2 * q.den)
  (if q.num < 0 then ['-'] else []) ++ natToDec (m / 100) ++ '.' :: twoDigits (m % 100)

/-- Literal-prefix matcher: consumes `k` from the front of `s` character
by character, the behaviour of ordinary characters in a `scanf` format. -/
def stripPfx : List Char → List Char → Option (List Char)
  | [], s => some s
  | _ :: _, [] => none
  | k :: ks, c :: cs => if k = c then stripPfx ks cs else none

/-- Optional leading sign of a numeric conversion: the sign factor and
the input after the sign character, if any. -/
def signSplit (s : List Char) : ℤ × List Char :=
  match s with
  | [] => (1, [])
  | c :: r => if c = '-' then (-1, r) else if c = '+' then (1, r) else (1, c :: r)

/-- Parse of a decimal integer with optional sign after skipping leading
whitespace: the semantics of `fscanf "%d"`.  Returns the value and the
unconsumed rest, or `none` when no digit is found. -/
def parseCIntR (s : List Char) : Option (ℤ × List Char) :=
  let p := signSplit (s.dropWhile isWSChar)
  let ds := p.2.takeWhile isDigitChar
  if ds = [] then none else some (p.1 * digitsVal ds, p.2.dropWhile isDigitChar)

/-- Integer parse discarding the rest of the input. -/
def parseCInt (s : List Char) : Option ℤ := (parseCIntR s).map (·.1)

/-- Optional leading sign of an exponent: whether it is negative, and
the input after the sign character, if any. -/
def expSignSplit (r : List Char) : Bool × List Char :=
  match r with
  | [] => (false, [])
  | c :: t => if c = '-' then (true, t) else if c = '+' then (false, t) else (false, c :: t)

/-- Parse of the exponent part of a float, `e`/`E` followed by an
optionally signed digit string; consumed only when well formed. -/
def parseExp (mant : Frac) (s : List Char) : Frac × List Char :=
  match s with
  | [] => (mant, [])
  | c :: r =>
    if c = 'e' ∨ c = 'E' then
      let p := expSignSplit r
      let ed := p.2.takeWhile isDigitChar
      if ed = [] then (mant, s)
      else (mant.scale10 p.1 (digitsVal ed), p.2.dropWhile isDigitChar)
    else (mant, s)

/-- Split of the optional fractional part: the fraction digits after a
leading dot and the remaining input. -/
def fracSplit (s2 : List Char) : List Char × List Char :=
  match s2 with
  | [] => ([], [])
  | c :: r =>
    if c = '.' then (r.takeWhile isDigitChar, r.dropWhile isDigitChar) else ([], c :: r)

/-- Parse of a decimal floating value after leading whitespace has been
skipped: optional sign, digits with optional fractional part, optional
exponent — the decimal text accepted by `scanf "%f"`, with the value
kept as an exact fraction.  The binary32 value `sscanf` actually stores
is this value's rounding, applied by `scanKeyF32` below.  The
`inf`/`nan`/hex forms `%f` also accepts are outside this model.
Returns `none` when no digit is present. -/
def parseCFloat (s : List Char) : Option (Frac × List Char) :=
  let p := signSplit s
  let ip := p.2.takeWhile isDigitChar
  let s2 := p.2.dropWhile isDigitChar
  let fq := fracSplit s2
  if ip.length + fq.1.length = 0 then none
  else
    let mant : Frac :=
      ⟨p.1 * ((digitsVal ip : ℤ) * 10 ^ fq.1.length + digitsVal fq.1), 10 ^ fq.1.length⟩
    some (parseExp mant fq.2)

/-- Match of the `sscanf` format `key ++ " = %f"` against a line: the key
characters are literal directives, each format space skips any amount of
whitespace, and `%f` itself skips whitespace before the number.  Returns
the parsed value when the conversion succeeds. -/
def scanKeyFloat (key : List Char) (line : List Char) : Option Frac :=
  match stripPfx key line with
  | none => none
  | some r1 =>
    match r1.dropWhile isWSChar with
    | [] => none
    | c :: r3 =>
      if c = '=' then (parseCFloat (r3.dropWhile isWSChar)).map (·.1) else none

/-- One `fgets` read with buffer size `n + 1`: up to `n` characters are
consumed, stopping after a newline.  Returns the chunk and the rest. -/
def fgetsTake : ℕ → List Char → List Char × List Char
  | 0, cs => ([], cs)
  | _ + 1, [] => ([], [])
  | n + 1, c :: cs =>
    if c = '\n' then ([c], cs)
    else
      let p := fgetsTake n cs
      (c :: p.1, p.2)

/-- The sequence of chunks produced by repeated `fgets` calls with a
512-byte buffer (hence at most 511 characters per read), written with
explicit fuel for structural recursion. -/
def fgetsChunksAux : ℕ → List Char → List (List Char)
  | 0, _ => []
  | fuel + 1, cs =>
    if cs = [] then []
    else
      let p := fgetsTake 511 cs
      p.1 :: fgetsChunksAux fuel p.2

/-- All chunks of a file content as read by the program's
`while (fgets(line, sizeof(line), f))` loops. -/
def fgetsChunks (cs : List Char) : List (List Char) := fgetsChunksAux cs.length cs

/-- A file system: an association from paths to file contents.  Paths
are compared exactly; at most one binding per path is kept live. -/
abbrev FS := List (String × List Char)

/-- Content of the file at `p`, when present. -/
def fsLookup : FS → String → Option (List Char)
  | [], _ => none
  | (q, c) :: rest, p => if q = p then some c else fsLookup rest p

/-- Effect of `remove(p)`. -/
def fsRemove : FS → String → FS
  | [], _ => []
  | e :: rest, p => if e.1 = p then fsRemove rest p else e :: fsRemove rest p

/-- Effect of creating or truncating `p` and writing `c` to it. -/
def fsWrite (fs : FS) (p : String) (c : List Char) : FS := (p, c) :: fsRemove fs p

/-- Effect of `rename(src, dst)` when `src` exists. -/
def fsRename (fs : FS) (src dst : String) : FS :=
  match fsLookup fs src with
  | none => fs
  | some c => fsWrite (fsRemove fs src) dst c

/-- Path obtained by appending a suffix to a path, as built by
`snprintf(tmp, ..., "%s.tmp", path)` and its `.avgtmp` analogue. -/
def tmpPath (p : String) (suffix : List Char) : String := String.mk (p.data ++ suffix)

/-- Embedding of `load_student_data` (src/main.c:131-155): read the ID
counter at `path`; seed a missing file with `1`; treat unparsable or
below-1 content as `1` without touching the file.  Directory creation and
the create-failure path are abstracted as succeeding. -/
def load_student_data (fs : FS) (path : String) : FS × ℤ :=
  match fsLookup fs path with
  | none => (fsWrite fs path ['1', '\n'], 1)
  | some content =>
    match parseCInt content with
    | some v => if v < 1 then (fs, 1) else (fs, v)
    | none => (fs, 1)

/-- Embedding of `update_next_id` (src/main.c:167-181): write the new id
to `path ++ ".tmp"`, then `remove(path)` and `rename`.  The two flags
inject failure of the `remove` and `rename` calls, whose results the C
code ignores. -/
def update_next_id (fs : FS) (path : String) (new_id : ℤ)
    (removeFails renameFails : Bool) : FS :=
  let tmp := tmpPath path ".tmp".data
  let fs1 := fsWrite fs tmp (intToDec new_id ++ ['\n'])
  let fs2 := if removeFails then fs1 else fsRemove fs1 path
  if renameFails then fs2 else fsRename fs2 tmp path

/-- Key literal of the first subject grade sscanf format. -/
def key1 : List Char := "SUBJECT1_GRADE".data

/-- Key literal of the second subject grade sscanf format. -/
def key2 : List Char := "SUBJECT2_GRADE".data

/-- Key literal of the third subject grade sscanf format. -/
def key3 : List Char := "SUBJECT3_GRADE".data

/-- Key literal of the fourth subject grade sscanf format. -/
def key4 : List Char := "SUBJECT4_GRADE".data

/-- Scan state of `recompute_average_grade`'s first loop: the four grade
variables (initialised to zero) and their found flags. -/
structure GradeScan where
  g1 : Frac
  g2 : Frac
  g3 : Frac
  g4 : Frac
  have1 : Bool
  have2 : Bool
  have3 : Bool
  have4 : Bool
  deriving DecidableEq

/-- Initial scan state, grades zero and nothing found. -/
def initScan : GradeScan := ⟨⟨0, 1⟩, ⟨0, 1⟩, ⟨0, 1⟩, ⟨0, 1⟩, false, false, false, false⟩

/-- One line of the scan loop (src/main.c:200-210): the `else if` chain
of the four subject-grade `sscanf` calls, each success overwriting the
corresponding variable. -/
def scanStep (st : GradeScan) (line : List Char) : GradeScan :=
  match scanKeyFloat key1 line with
  | some v => { st with g1 := v, have1 := true }
  | none =>
    match scanKeyFloat key2 line with
    | some v => { st with g2 := v, have2 := true }
    | none =>
      match scanKeyFloat key3 line with
      | some v => { st with g3 := v, have3 := true }
      | none =>
        match scanKeyFloat key4 line with
        | some v => { st with g4 := v, have4 := true }
        | none => st

/-- Whole-file grade scan of `recompute_average_grade`. -/
def scanGrades (cs : List Char) : GradeScan := (fgetsChunks cs).foldl scanStep initScan

/-- The 16-character prefix compared by
`strncmp(line, "AVERAGE_GRADE = ", 16)`. -/
def avgPfx : List Char := "AVERAGE_GRADE = ".data

/-- The line-rewriting loop shared by `edit_student` (src/main.c:558-598)
and the second loop of `recompute_average_grade` (src/main.c:236-243):
every chunk beginning with `pfx` is replaced by `repl`, all other chunks
are copied verbatim, and the flag records whether any chunk matched. -/
def editChunks (pfx repl : List Char) : List (List Char) → List Char × Bool
  | [] => ([], false)
  | c :: rest =>
    let p := editChunks pfx repl rest
    if pfx.isPrefixOf c then (repl ++ p.1, true) else (c ++ p.1, p.2)

/-- The rewriting loop applied to a whole file content. -/
def editLoop (pfx repl cs : List Char) : List Char × Bool :=
  editChunks pfx repl (fgetsChunks cs)

/-- The sum of the four scanned grades divided by four, the `avg` of
src/main.c:218, in exact arithmetic; the binary32 computation with
per-operation rounding is `meanF32` below. -/
def meanGrades (st : GradeScan) : Frac :=
  (((st.g1.add st.g2).add st.g3).add st.g4).divNat 4

/-- New content computed by `recompute_average_grade` when all four
subject grades are present: every `AVERAGE_GRADE = ` line replaced by the
freshly formatted average, which is appended instead when no line
matched (src/main.c:218-246). -/
def recomputeContent (cs : List Char) : Option (List Char) :=
  let st := scanGrades cs
  if st.have1 && st.have2 && st.have3 && st.have4 then
    let avgLine := avgPfx ++ fmt2 (meanGrades st) ++ ['\n']
    let p := editLoop avgPfx avgLine cs
    some (if p.2 then p.1 else p.1 ++ avgLine)
  else none

/-- Embedding of `recompute_average_grade` (src/main.c:189-263).  Returns
the final file system and the C return value.  The three flags inject
failure of the temp-file `fopen`, the `remove` and the `rename`; on a
failed `remove` or `rename` the code deletes the temp file. -/
def recompute_average_grade (fs : FS) (filename : String)
    (tempOpenFails removeFails renameFails : Bool) : FS × ℤ :=
  match fsLookup fs filename with
  | none => (fs, -1)
  | some cs =>
    match recomputeContent cs with
    | none => (fs, -1)
    | some newCs =>
      if tempOpenFails then (fs, -1)
      else
        let tmp := tmpPath filename ".avgtmp".data
        let fs1 := fsWrite fs tmp newCs
        if removeFails then (fsRemove fs1 tmp, -1)
        else
          let fs2 := fsRemove fs1 filename
          if renameFails then (fsRemove fs2 tmp, -1)
          else (fsRename fs2 tmp filename, 0)

/-- Record path derived from a student id,
`data/students/output_<id>.txt` (src/main.c:472). -/
def studentFilename (id : ℤ) : String :=
  String.mk ("data/students/output_".data ++ (intToDec id ++ ".txt".data))

/-- Temp path used by `edit_student`, `temp_<id>.txt` in the current
working directory (src/main.c:544). -/
def editTempName (id : ℤ) : String :=
  String.mk ("temp_".data ++ (intToDec id ++ ".txt".data))

/-- The `KEY = ` line head matched for each menu choice of
`edit_student` (src/main.c:561-593). -/
def choicePfx : ℕ → Option (List Char)
  | 1 => some "NAME = ".data
  | 2 => some "GRADE = ".data
  | 3 => some "PHONE_NUMBER = ".data
  | 4 => some "FATHER_NAME = ".data
  | 5 => some "MOTHER_NAME = ".data
  | 6 => some "DOB = ".data
  | 7 => some "FAMILY_NAME = ".data
  | 8 => some "SUBJECT1_GRADE = ".data
  | 9 => some "SUBJECT2_GRADE = ".data
  | 10 => some "SUBJECT3_GRADE = ".data
  | 11 => some "SUBJECT4_GRADE = ".data
  | _ => none

/-- Validation of `sscanf(new_value, "%d %c", ...) == 1`: an integer with
nothing but whitespace after it. -/
def validateInt (s : List Char) : Option ℤ :=
  match parseCIntR s with
  | some (v, r) => if r.dropWhile isWSChar = [] then some v else none
  | none => none

/-- Validation of `sscanf(new_value, "%f %c", ...) == 1`: a float with
nothing but whitespace after it. -/
def validateFloat (s : List Char) : Option Frac :=
  match parseCFloat (s.dropWhile isWSChar) with
  | some (v, r) => if r.dropWhile isWSChar = [] then some v else none
  | none => none

/-- Replacement line written for a given menu choice and raw new value:
strings verbatim, the class grade as a validated nonnegative `%d`, the
subject grades as validated `%.2f` values (src/main.c:512-526 and the
`fprintf` calls of 561-593). -/
def editRepl (choice : ℕ) (nv : List Char) : Option (List Char) :=
  match choicePfx choice with
  | none => none
  | some pfx =>
    if choice = 2 then
      match validateInt nv with
      | some v => if v < 0 then none else some (pfx ++ intToDec v ++ ['\n'])
      | none => none
    else if choice = 8 ∨ choice = 9 ∨ choice = 10 ∨ choice = 11 then
      match validateFloat nv with
      | some q => some (pfx ++ fmt2 q ++ ['\n'])
      | none => none
    else some (pfx ++ nv ++ ['\n'])

/-- Outcome of an `edit_student` call. -/
inductive EditResult
  | ok
  | notFound
  | ioError
  | invalidInput
  deriving DecidableEq

/-- Embedding of `edit_student` (src/main.c:455-632) after the
interactive reads: id and value validation, the rewrite of the record
file through the temp file, the `remove`/`rename` replacement (failures
injectable through the flags; the C code leaves the temp file behind on
these two failures), and the second-pass average recompute for subject
grade choices. -/
def edit_student_fs (fs : FS) (id : ℤ) (choice : ℕ) (nv : List Char)
    (tempOpenFails removeFails renameFails : Bool) : FS × EditResult :=
  if id < 1 then (fs, .invalidInput)
  else
    match choicePfx choice with
    | none => (fs, .invalidInput)
    | some pfx =>
      match editRepl choice nv with
      | none => (fs, .invalidInput)
      | some repl =>
        let filename := studentFilename id
        match fsLookup fs filename with
        | none => (fs, .ioError)
        | some cs =>
          if tempOpenFails then (fs, .ioError)
          else
            let tmp := editTempName id
            let p := editLoop pfx repl cs
            let fs1 := fsWrite fs tmp p.1
            if p.2 = false then (fsRemove fs1 tmp, .notFound)
            else if removeFails then (fs1, .ioError)
            else
              let fs2 := fsRemove fs1 filename
              if renameFails then (fs2, .ioError)
              else
                let fs3 := fsRename fs2 tmp filename
                if choice = 8 ∨ choice = 9 ∨ choice = 10 ∨ choice = 11 then
                  ((recompute_average_grade fs3 filename false false false).1, .ok)
                else (fs3, .ok)

/-- Directory part of a path: the characters before the last slash, or
`"."` when the path has no slash. -/
def dirName (p : List Char) : List Char :=
  if p.reverse.dropWhile (fun c => c ≠ '/') = [] then ['.']
  else ((p.reverse.dropWhile (fun c => c ≠ '/')).drop 1).reverse

/-- A record line that fits the 512-byte read buffer: exactly one
newline, located at the end, and at most 511 characters in total, so one
`fgets` call reads it whole. -/
def properLine (l : List Char) : Prop :=
  l.count '\n' = 1 ∧ l.getLast? = some '\n' ∧ l.length ≤ 511

instance properLine.decidable (l : List Char) : Decidable (properLine l) := by
  unfold properLine
  infer_instance

/-- Record file used by concrete counterexamples and witnesses: the four
subject grades of the end-to-end example plus a stale average. -/
def gradeFile : List Char :=
  "SUBJECT1_GRADE = 80.00\nSUBJECT2_GRADE = 90.00\nSUBJECT3_GRADE = 70.00\nSUBJECT4_GRADE = 60.00\nAVERAGE_GRADE = 0.00\n".data

/-- A record whose single `NAME` line is longer than the 511-character
read window of `fgets`. -/
def longNameLine : List Char := "NAME = ".data ++ List.replicate 505 'a' ++ ['\n']

/-- Record with a name line and full grades, used by the replace-outcome
witness. -/
def nameGradeFile : List Char :=
  "NAME = bob\nSUBJECT1_GRADE = 80.00\nSUBJECT2_GRADE = 90.00\nSUBJECT3_GRADE = 70.00\nSUBJECT4_GRADE = 60.00\nAVERAGE_GRADE = 0.00\n".data

/-- The content `recompute_average_grade` writes for `nameGradeFile`. -/
def nameGradeFileOut : List Char :=
  "NAME = bob\nSUBJECT1_GRADE = 80.00\nSUBJECT2_GRADE = 90.00\nSUBJECT3_GRADE = 70.00\nSUBJECT4_GRADE = 60.00\nAVERAGE_GRADE = 75.00\n".data

/-- An IEEE-754 binary32 datum as the program's `float` variables hold
it: a finite value given by its sign and exact nonnegative dyadic
magnitude, a signed infinity, or a NaN.  Signed zeros are `fin neg 0`. -/
inductive F32 where
  | fin (neg : Bool) (mag : Frac)
  | inf (neg : Bool)
  | nan
  deriving DecidableEq

/-- Number of binary digits of `n`, fuel-driven for structural
recursion. -/
def bitLenAux : ℕ → ℕ → ℕ
  | 0, _ => 0
  | fuel + 1, n => if n = 0 then 0 else bitLenAux fuel (n / 2) + 1

/-- Number of binary digits of `n`. -/
def bitLen (n : ℕ) : ℕ := bitLenAux n n

/-- Floor of the base-2 logarithm of `a / b` for positive `a` and `b`:
from the bit lengths the value is pinned to two octaves, and one
comparison decides between them. -/
def floorLog2 (a b : ℕ) : ℤ :=
  let d : ℤ := (bitLen a : ℤ) - (bitLen b : ℤ)
  if 0 ≤ d then (if b * 2 ^ d.toNat ≤ a then d else d - 1)
  else (if b ≤ a * 2 ^ (-d).toNat then d else d - 1)

/-- Integer division of `N` by positive `D` rounded to the nearest
integer, ties to even — the rounding IEEE-754 applies at every step. -/
def rheDiv (N D : ℕ) : ℕ :=
  let q := N / D
  let r := N % D
  if 2 * r < D then q
  else if 2 * r > D then q + 1
  else if q % 2 = 0 then q else q + 1

/-- Round the positive magnitude `a / b` to the nearest binary32 value,
ties to even: the significand is `a / b` scaled by the unit in the last
place (`2 ^ (e - 23)` for a normal value of exponent `e`, `2 ^ (-149)`
in the gradual-underflow range) and rounded half-even; a rounded value
of `2 ^ 128` or more overflows, reported as `none`. -/
def roundMagB32 (a b : ℕ) : Option Frac :=
  let e := floorLog2 a b
  let scale : ℤ := if e < -126 then -149 else e - 23
  let m : ℕ :=
    if 0 ≤ scale then rheDiv a (b * 2 ^ scale.toNat)
    else rheDiv (a * 2 ^ (-scale).toNat) b
  let v : Frac :=
    if 0 ≤ scale then ⟨(m : ℤ) * 2 ^ scale.toNat, 1⟩ else ⟨(m : ℤ), 2 ^ (-scale).toNat⟩
  if (2 : ℤ) ^ 128 * (v.den : ℤ) ≤ v.num then none else some v

/-- Round a signed exact value to binary32.  The sign is kept, also by
a zero or underflowed-to-zero result; overflow gives a signed
infinity. -/
def roundB32 (neg : Bool) (mag : Frac) : F32 :=
  if mag.num = 0 ∨ mag.den = 0 then .fin neg ⟨0, 1⟩
  else
    match roundMagB32 mag.num.natAbs mag.den with
    | some v => .fin neg v
    | none => .inf neg

/-- IEEE binary32 addition, round to nearest, ties to even: NaN
propagates, opposite infinities give NaN, and an exact zero sum is `+0`
except that `-0 + -0 = -0`. -/
def f32add : F32 → F32 → F32
  | .nan, _ => .nan
  | _, .nan => .nan
  | .inf n1, .inf n2 => if n1 = n2 then .inf n1 else .nan
  | .inf n1, .fin _ _ => .inf n1
  | .fin _ _, .inf n2 => .inf n2
  | .fin n1 m1, .fin n2 m2 =>
    let s := Frac.add ⟨(if n1 then -1 else 1) * m1.num, m1.den⟩
                      ⟨(if n2 then -1 else 1) * m2.num, m2.den⟩
    if s.num = 0 then (if n1 && n2 then .fin true ⟨0, 1⟩ else .fin false ⟨0, 1⟩)
    else roundB32 (s.num < 0) ⟨(s.num.natAbs : ℤ), s.den⟩

/-- IEEE binary32 division by `4.0f`: sign kept, quotient rounded to
nearest, ties to even (underflow is gradual through `roundB32`). -/
def f32div4 : F32 → F32
  | .nan => .nan
  | .inf n => .inf n
  | .fin n m => if m.num = 0 then .fin n ⟨0, 1⟩ else roundB32 n ⟨m.num, m.den * 4⟩

/-- The `printf "%.2f"` conversion of a binary32 value: the exact value
times 100 rounded to the nearest integer, decimal ties to even, with
the sign kept (also for negative zero); infinities print `inf` and NaN
prints `nan` (the sign shown for a NaN is implementation-defined in C,
modelled as none). -/
def fmt2F32 : F32 → List Char
  | .nan => "nan".data
  | .inf neg => if neg then "-inf".data else "inf".data
  | .fin neg mag =>
    let m : ℕ := rheDiv (mag.num.natAbs * 100) mag.den
    (if neg then ['-'] else []) ++ natToDec (m / 100) ++ '.' :: twoDigits (m % 100)

/-- The binary32 value `sscanf "%f"` stores for a grade line: token
acceptance is exactly that of `scanKeyFloat`, and the stored value is
the exact decimal value rounded to the nearest binary32, the sign of a
zero taken from the token's sign character.  The `inf`/`nan`/hex forms
`%f` also accepts are outside this model, as in `parseCFloat`. -/
def scanKeyF32 (key line : List Char) : Option F32 :=
  match stripPfx key line with
  | none => none
  | some r1 =>
    match r1.dropWhile isWSChar with
    | [] => none
    | c :: r3 =>
      if c = '=' then
        match parseCFloat (r3.dropWhile isWSChar) with
        | none => none
        | some (v, _) =>
          some (roundB32
            (decide (v.num < 0) ||
              (decide (v.num = 0) && decide ((signSplit (r3.dropWhile isWSChar)).1 = -1)))
            ⟨(v.num.natAbs : ℤ), v.den⟩)
      else none

/-- Scan state of the refined binary32 value model: the four grade
variables (initialised to `+0.0f`) and their found flags, mirroring
`GradeScan`. -/
structure GradeScanF where
  g1 : F32
  g2 : F32
  g3 : F32
  g4 : F32
  have1 : Bool
  have2 : Bool
  have3 : Bool
  have4 : Bool
  deriving DecidableEq

/-- Initial refined scan state. -/
def initScanF : GradeScanF :=
  ⟨.fin false ⟨0, 1⟩, .fin false ⟨0, 1⟩, .fin false ⟨0, 1⟩, .fin false ⟨0, 1⟩,
    false, false, false, false⟩

/-- One line of the scan loop (src/main.c:200-210) at the binary32
value level: the same `else if` chain, each success storing the rounded
float. -/
def scanStepF (st : GradeScanF) (line : List Char) : GradeScanF :=
  match scanKeyF32 key1 line with
  | some v => { st with g1 := v, have1 := true }
  | none =>
    match scanKeyF32 key2 line with
    | some v => { st with g2 := v, have2 := true }
    | none =>
      match scanKeyF32 key3 line with
      | some v => { st with g3 := v, have3 := true }
      | none =>
        match scanKeyF32 key4 line with
        | some v => { st with g4 := v, have4 := true }
        | none => st

/-- Whole-file grade scan at the binary32 value level. -/
def scanGradesF (cs : List Char) : GradeScanF := (fgetsChunks cs).foldl scanStepF initScanF

/-- The average computation of src/main.c:218 in binary32: three
additions and one division by `4.0f`, each rounding to nearest, ties to
even (float evaluation, `FLT_EVAL_METHOD 0`). -/
def meanF32 (st : GradeScanF) : F32 :=
  f32div4 (f32add (f32add (f32add st.g1 st.g2) st.g3) st.g4)

/-- New content computed by `recompute_average_grade` with the binary32
value model: the rewrite structure of `recomputeContent` with the
written value being the `%.2f` conversion of the float mean. -/
def recomputeContentF (cs : List Char) : Option (List Char) :=
  let st := scanGradesF cs
  if st.have1 && st.have2 && st.have3 && st.have4 then
    let avgLine := avgPfx ++ fmt2F32 (meanF32 st) ++ ['\n']
    let p := editLoop avgPfx avgLine cs
    some (if p.2 then p.1 else p.1 ++ avgLine)
  else none

/-- Embedding of `recompute_average_grade` (src/main.c:189-263) with the
refined binary32 value model: control flow and file handling are those
of `recompute_average_grade`; only the numeric value written differs. -/
def recompute_average_gradeF (fs : FS) (filename : String)
    (tempOpenFails removeFails renameFails : Bool) : FS × ℤ :=
  match fsLookup fs filename with
  | none => (fs, -1)
  | some cs =>
    match recomputeContentF cs with
    | none => (fs, -1)
    | some newCs =>
      if tempOpenFails then (fs, -1)
      else
        let tmp := tmpPath filename ".avgtmp".data
        let fs1 := fsWrite fs tmp newCs
        if removeFails then (fsRemove fs1 tmp, -1)
        else
          let fs2 := fsRemove fs1 filename
          if renameFails then (fsRemove fs2 tmp, -1)
          else (fsRename fs2 tmp filename, 0)

/-- Modelled from the spec's words, for comparison with the program in
the refutation of the exact-mean reading: the `AVERAGE_GRADE` line
holding the exact arithmetic mean of the four grade values formatted
with two decimal places. -/
def specMeanLine (g1 g2 g3 g4 : Frac) : List Char :=
  avgPfx ++ fmt2 ((((g1.add g2).add g3).add g4).divNat 4) ++ ['\n']

/-- Record whose first grade, 16777219 = 2^24 + 3, is not representable
in binary32: `sscanf "%f"` stores 16777220.0f for it. -/
def overPrecFile : List Char :=
  "SUBJECT1_GRADE = 16777219\nSUBJECT2_GRADE = 0\nSUBJECT3_GRADE = 0\nSUBJECT4_GRADE = 0\nAVERAGE_GRADE = 0.00\n".data

example : natToDec 1230 = ['1', '2', '3', '0'] := by decide

example : parseCInt "  -42x".data = some (-42) := by decide

example : parseCInt "abc".data = none := by decide

example : scanKeyFloat "SUBJECT1_GRADE".data "SUBJECT1_GRADE = 80.25\n".data
    = some ⟨8025, 100⟩ := by decide

example : scanKeyFloat "SUBJECT1_GRADE".data "SUBJECT1_GRADEX = 8\n".data = none := by decide

example : fmt2 ⟨7500, 100⟩ = ['7', '5', '.', '0', '0'] := by decide

example : fmt2 ⟨30000, 400⟩ = ['7', '5', '.', '0', '0'] := by decide

/-- Lookup after a removal: the removed path is gone, others untouched. -/
theorem fsLookup_fsRemove (fs : FS) (p q : String) :
    fsLookup (fsRemove fs p) q = if q = p then none else fsLookup fs q := by
  induction fs with
  | nil => simp [fsRemove, fsLookup]
  | cons e rest ih =>
    by_cases he : e.1 = p
    · by_cases hqp : q = p
      · subst hqp
        simp [fsRemove, he, ih]
      · have hne : ¬ e.1 = q := fun h => hqp (by rw [← h, he])
        have hpq : ¬ p = q := fun h => hqp h.symm
        simp [fsRemove, he, ih, hqp, fsLookup, hne, hpq]
    · by_cases hq : e.1 = q
      · have hqp : ¬ q = p := fun h => he (by rw [hq, h])
        simp [fsRemove, he, fsLookup, hq, hqp]
      · simp [fsRemove, he, fsLookup, hq, ih]

/-- Lookup after a write: the written path holds the new content, others
are untouched. -/
theorem fsLookup_fsWrite (fs : FS) (p q : String) (c : List Char) :
    fsLookup (fsWrite fs p c) q = if p = q then some c else fsLookup fs q := by
  by_cases h : p = q <;> simp [fsWrite, fsLookup, h, fsLookup_fsRemove]
  intro hq
  exact absurd hq.symm h

/-- Net effect on lookups of the write-temp / remove-original / rename
sequence shared by all three replace operations, when every step
succeeds: the target holds the new content and the temp file is gone. -/
theorem lookup_replace (fs : FS) (f tmp : String) (c : List Char) (hne : tmp ≠ f) :
    fsLookup (fsRename (fsRemove (fsWrite fs tmp c) f) tmp f) f = some c ∧
    fsLookup (fsRename (fsRemove (fsWrite fs tmp c) f) tmp f) tmp = none := by
  have h1 : fsLookup (fsRemove (fsWrite fs tmp c) f) tmp = some c := by
    rw [fsLookup_fsRemove]
    simp [hne, fsLookup_fsWrite]
  constructor
  · rw [fsRename, h1, fsLookup_fsWrite]
    simp
  · rw [fsRename, h1, fsLookup_fsWrite]
    simp [Ne.symm hne, fsLookup_fsRemove]

/-- A path with a nonempty suffix appended differs from the path. -/
theorem tmpPath_ne (p : String) (s : List Char) (hs : s ≠ []) : tmpPath p s ≠ p := by
  intro h
  have hlen := congrArg (fun q : String => q.data.length) h
  simp [tmpPath] at hlen
  exact hs hlen

/-- Lists with distinct known head characters stay different under any
appends. -/
theorem ne_of_head_append (a b x y : List Char) (c d : Char)
    (ha : a.head? = some c) (hb : b.head? = some d) (hcd : c ≠ d) : a ++ x ≠ b ++ y := by
  cases a with
  | nil => simp at ha
  | cons a0 a' =>
    cases b with
    | nil => simp at hb
    | cons b0 b' =>
      simp at ha hb
      intro h
      simp only [List.cons_append, List.cons.injEq] at h
      exact hcd (ha ▸ hb ▸ h.1)

/-- The record path and the edit temp path of the same id differ: the
temp file of `edit_student` is not in the student directory. -/
theorem studentFilename_ne_editTempName (id : ℤ) : studentFilename id ≠ editTempName id := by
  intro h
  have hd := congrArg String.data h
  simp only [studentFilename, editTempName] at hd
  exact ne_of_head_append _ _ _ _ 'd' 't' (by decide) (by decide) (by decide) hd

/-- Character-class facts about digit characters. -/
theorem digitChar_props (d : ℕ) (hd : d < 10) :
    isDigitChar (digitChar d) = true ∧ isWSChar (digitChar d) = false ∧
    digitChar d ≠ '-' ∧ digitChar d ≠ '+' ∧ digitChar d ≠ '\n' ∧
    digitChar d ≠ '/' ∧ digVal (digitChar d) = d := by
  interval_cases d <;> decide

/-- Every character placed by the fuel-driven digit renderer is a digit
character. -/
theorem natDecAux_mem : ∀ fuel n c, c ∈ natDecAux fuel n → ∃ d, d < 10 ∧ c = digitChar d := by
  intro fuel
  induction fuel with
  | zero => intro n c hc; simp [natDecAux] at hc
  | succ m ih =>
    intro n c hc
    by_cases h0 : n = 0
    · simp [natDecAux, h0] at hc
    · rw [natDecAux, if_neg h0] at hc
      rcases List.mem_append.mp hc with h | h
      · exact ih _ _ h
      · exact ⟨n % 10, Nat.mod_lt _ (by norm_num), by simpa using h⟩

/-- Every character of the decimal rendering of a natural number is a
digit character. -/
theorem natToDec_mem (n : ℕ) (c : Char) (hc : c ∈ natToDec n) :
    ∃ d, d < 10 ∧ c = digitChar d := by
  by_cases h0 : n = 0
  · simp [natToDec, h0] at hc
    exact ⟨0, by norm_num, by simp [hc]; rfl⟩
  · rw [natToDec, if_neg h0] at hc
    exact natDecAux_mem _ _ _ hc

/-- The decimal rendering is never empty. -/
theorem natToDec_ne_nil (n : ℕ) : natToDec n ≠ [] := by
  by_cases h0 : n = 0
  · simp [natToDec, h0]
  · rw [natToDec, if_neg h0]
    obtain ⟨m, hm⟩ := Nat.exists_eq_succ_of_ne_zero h0
    subst hm
    rw [natDecAux, if_neg (Nat.succ_ne_zero m)]
    simp

/-- Digit accumulation over a snoc. -/
theorem digitsVal_append_single (xs : List Char) (c : Char) :
    digitsVal (xs ++ [c]) = digitsVal xs * 10 + digVal c := by
  simp [digitsVal, List.foldl_append]

/-- The fuel-driven digit renderer round-trips through digit
accumulation whenever the fuel covers the value. -/
theorem natDecAux_val : ∀ fuel n, n ≤ fuel → digitsVal (natDecAux fuel n) = n := by
  intro fuel
  induction fuel with
  | zero =>
    intro n hn
    interval_cases n
    simp [natDecAux, digitsVal]
  | succ m ih =>
    intro n hn
    by_cases h0 : n = 0
    · simp [natDecAux, h0, digitsVal]
    · rw [natDecAux, if_neg h0, digitsVal_append_single]
      have hlt : n / 10 < n := Nat.div_lt_self (Nat.pos_of_ne_zero h0) (by norm_num)
      rw [ih (n / 10) (by omega)]
      rw [(digitChar_props (n % 10) (Nat.mod_lt _ (by norm_num))).2.2.2.2.2.2]
      omega

/-- The decimal rendering of `n` accumulates back to `n`. -/
theorem natToDec_val (n : ℕ) : digitsVal (natToDec n) = n := by
  by_cases h0 : n = 0
  · simp [natToDec, h0, digitsVal]
    decide
  · rw [natToDec, if_neg h0]
    exact natDecAux_val n n le_rfl

/-- A `takeWhile` over a block of characters all satisfying the
predicate, followed by a failing character, takes exactly the block. -/
theorem takeWhile_append_block (p : Char → Bool) (xs : List Char) (y : Char) (rest : List Char)
    (hall : ∀ c ∈ xs, p c = true) (hy : p y = false) :
    (xs ++ y :: rest).takeWhile p = xs := by
  induction xs with
  | nil => simp [List.takeWhile, hy]
  | cons x xs' ih =>
    have hx : p x = true := hall x (List.mem_cons_self x xs')
    simp only [List.cons_append, List.takeWhile_cons, hx]
    simp [ih (fun c hc => hall c (List.mem_cons_of_mem x hc))]

/-- The matching `dropWhile` drops exactly the block. -/
theorem dropWhile_append_block (p : Char → Bool) (xs : List Char) (y : Char) (rest : List Char)
    (hall : ∀ c ∈ xs, p c = true) (hy : p y = false) :
    (xs ++ y :: rest).dropWhile p = y :: rest := by
  induction xs with
  | nil => simp [List.dropWhile, hy]
  | cons x xs' ih =>
    have hx : p x = true := hall x (List.mem_cons_self x xs')
    simp only [List.cons_append, List.dropWhile_cons, hx]
    simp [ih (fun c hc => hall c (List.mem_cons_of_mem x hc))]

/-- A `dropWhile` over a block of characters that all fail the predicate
leaves the list unchanged. -/
theorem dropWhile_none (p : Char → Bool) (xs : List Char)
    (hall : ∀ c ∈ xs, p c = false) : xs.dropWhile p = xs := by
  cases xs with
  | nil => rfl
  | cons x xs' => simp [List.dropWhile_cons, hall x (List.mem_cons_self x xs')]

/-- Parsing the decimal rendering of a natural number followed by a
newline yields the number back: the `fscanf "%d"` / `fprintf "%d\n"`
round trip. -/
theorem parseCIntR_natToDec (n : ℕ) (rest : List Char) :
    parseCIntR (natToDec n ++ '\n' :: rest) = some ((n : ℤ), '\n' :: rest) := by
  obtain ⟨c0, t, hct⟩ : ∃ c0 t, natToDec n = c0 :: t := by
    cases h : natToDec n with
    | nil => exact absurd h (natToDec_ne_nil n)
    | cons a b => exact ⟨a, b, rfl⟩
  obtain ⟨d, hd, hcd⟩ := natToDec_mem n c0 (by rw [hct]; exact List.mem_cons_self _ _)
  have hprops := digitChar_props d hd
  have hdigit : ∀ c ∈ natToDec n, isDigitChar c = true := by
    intro c hc
    obtain ⟨d', hd', hcd'⟩ := natToDec_mem n c hc
    rw [hcd']
    exact (digitChar_props d' hd').1
  have hws : (natToDec n ++ '\n' :: rest).dropWhile isWSChar = natToDec n ++ '\n' :: rest := by
    rw [hct, List.cons_append, List.dropWhile_cons]
    have : isWSChar c0 = false := by rw [hcd]; exact hprops.2.1
    simp [this]
  have hsign : signSplit (natToDec n ++ '\n' :: rest) = (1, natToDec n ++ '\n' :: rest) := by
    rw [hct, List.cons_append, signSplit]
    have hm : c0 ≠ '-' := by rw [hcd]; exact hprops.2.2.1
    have hp : c0 ≠ '+' := by rw [hcd]; exact hprops.2.2.2.1
    simp [hm, hp]
  rw [parseCIntR, hws, hsign]
  have htake := takeWhile_append_block isDigitChar (natToDec n) '\n' rest hdigit (by decide)
  have hdrop := dropWhile_append_block isDigitChar (natToDec n) '\n' rest hdigit (by decide)
  simp only [htake, hdrop]
  rw [if_neg (natToDec_ne_nil n)]
  rw [natToDec_val]
  simp

/-- One `fgets` read of a short newline-terminated line consumes exactly
the line. -/
theorem fgetsTake_line (xs : List Char) (rest : List Char) : ∀ n, '\n' ∉ xs →
    xs.length + 1 ≤ n → fgetsTake n (xs ++ '\n' :: rest) = (xs ++ ['\n'], rest) := by
  induction xs with
  | nil =>
    intro n _ hn
    obtain ⟨m, rfl⟩ := Nat.exists_eq_succ_of_ne_zero (by omega : n ≠ 0)
    simp [fgetsTake]
  | cons x xs' ih =>
    intro n hnl hn
    obtain ⟨m, rfl⟩ := Nat.exists_eq_succ_of_ne_zero (by omega : n ≠ 0)
    have hx : x ≠ '\n' := fun h => hnl (h ▸ List.mem_cons_self x xs')
    have hrec := ih m (fun h => hnl (List.mem_cons_of_mem x h)) (by simpa using hn)
    simp only [List.cons_append, fgetsTake, if_neg hx]
    simp only [List.append_eq, hrec]

/-- An `fgets` read splits its input: chunk plus rest is the input. -/
theorem fgetsTake_join : ∀ n cs, (fgetsTake n cs).1 ++ (fgetsTake n cs).2 = cs := by
  intro n
  induction n with
  | zero => intro cs; simp [fgetsTake]
  | succ m ih =>
    intro cs
    cases cs with
    | nil => simp [fgetsTake]
    | cons c t =>
      by_cases hc : c = '\n'
      · simp [fgetsTake, hc]
      · simp only [fgetsTake, if_neg hc, List.cons_append, List.cons.injEq]
        exact ⟨trivial, ih t⟩

/-- An `fgets` read from a nonempty input produces a nonempty chunk. -/
theorem fgetsTake_ne_nil (n : ℕ) (cs : List Char) (hcs : cs ≠ []) (hn : 0 < n) :
    (fgetsTake n cs).1 ≠ [] := by
  obtain ⟨m, rfl⟩ := Nat.exists_eq_succ_of_ne_zero (by omega : n ≠ 0)
  cases cs with
  | nil => exact absurd rfl hcs
  | cons c t =>
    by_cases hc : c = '\n' <;> simp [fgetsTake, hc]

/-- The chunks of a file concatenate back to the file. -/
theorem fgetsChunksAux_join : ∀ fuel cs, cs.length ≤ fuel →
    (fgetsChunksAux fuel cs).flatten = cs := by
  intro fuel
  induction fuel with
  | zero =>
    intro cs hcs
    have : cs = [] := List.length_eq_zero.mp (by omega)
    simp [this, fgetsChunksAux]
  | succ m ih =>
    intro cs hcs
    by_cases hnil : cs = []
    · simp [hnil, fgetsChunksAux]
    · rw [fgetsChunksAux, if_neg hnil]
      have hj := fgetsTake_join 511 cs
      have hne := fgetsTake_ne_nil 511 cs hnil (by norm_num)
      have hlen : (fgetsTake 511 cs).2.length ≤ m := by
        have := congrArg List.length hj
        simp only [List.length_append] at this
        have hpos : 0 < (fgetsTake 511 cs).1.length := List.length_pos.mpr hne
        omega
      simp only [List.flatten_cons, ih _ hlen, hj]

/-- The chunks of a file concatenate back to the file. -/
theorem fgetsChunks_join (cs : List Char) : (fgetsChunks cs).flatten = cs :=
  fgetsChunksAux_join cs.length cs le_rfl

/-- A proper line decomposes as its body plus a final newline. -/
theorem properLine_decomp (l : List Char) (h : properLine l) :
    ∃ xs, l = xs ++ ['\n'] ∧ '\n' ∉ xs ∧ xs.length + 1 ≤ 511 := by
  obtain ⟨hcount, hlast, hlen⟩ := h
  have hne : l ≠ [] := by
    intro h0
    rw [h0] at hlast
    simp at hlast
  refine ⟨l.dropLast, ?_, ?_, ?_⟩
  · have := List.dropLast_append_getLast hne
    rw [List.getLast?_eq_getLast l hne] at hlast
    rw [Option.some_inj] at hlast
    rw [hlast] at this
    exact this.symm
  · intro hmem
    have hsplit : l = l.dropLast ++ ['\n'] := by
      have := List.dropLast_append_getLast hne
      rw [List.getLast?_eq_getLast l hne] at hlast
      rw [Option.some_inj] at hlast
      rw [hlast] at this
      exact this.symm
    rw [hsplit, List.count_append] at hcount
    have h1 : l.dropLast.count '\n' ≠ 0 := fun h => (List.count_eq_zero.mp h) hmem
    simp [List.count_cons] at hcount
    omega
  · have : l.dropLast.length = l.length - 1 := List.length_dropLast l
    omega

/-- A file made of proper lines is chunked by `fgets` exactly into those
lines. -/
theorem fgetsChunksAux_lines : ∀ (L : List (List Char)) (fuel : ℕ),
    (∀ l ∈ L, properLine l) → L.flatten.length ≤ fuel → fgetsChunksAux fuel L.flatten = L := by
  intro L
  induction L with
  | nil =>
    intro fuel _ _
    cases fuel <;> simp [fgetsChunksAux]
  | cons l L' ih =>
    intro fuel hall hlen
    obtain ⟨xs, hx, hnl, hxl⟩ := properLine_decomp l (hall l (List.mem_cons_self _ _))
    have hlne : l ≠ [] := by rw [hx]; simp
    have hjoin_ne : (l :: L').flatten ≠ [] := by
      simp only [List.flatten_cons]
      intro h
      exact hlne (List.append_eq_nil.mp h).1
    have hfuel : fuel ≠ 0 := by
      intro h
      rw [h] at hlen
      exact hjoin_ne (List.length_eq_zero.mp (by omega))
    obtain ⟨m, rfl⟩ := Nat.exists_eq_succ_of_ne_zero hfuel
    rw [fgetsChunksAux, if_neg hjoin_ne]
    have hjc : (l :: L').flatten = l ++ L'.flatten := rfl
    have htake : fgetsTake 511 (l :: L').flatten = (l, L'.flatten) := by
      conv_lhs => rw [hjc, hx, List.append_assoc, List.singleton_append]
      rw [fgetsTake_line xs (L'.flatten) 511 hnl hxl, hx]
    rw [htake]
    simp only [List.cons.injEq, true_and]
    apply ih m (fun l' hl' => hall l' (List.mem_cons_of_mem _ hl'))
    have : (l :: L').flatten.length = l.length + L'.flatten.length := by
      simp [List.flatten_cons]
    have hl1 : 0 < l.length := List.length_pos.mpr hlne
    omega

/-- A file made of proper lines is chunked by `fgets` exactly into those
lines. -/
theorem fgetsChunks_lines (L : List (List Char)) (h : ∀ l ∈ L, properLine l) :
    fgetsChunks L.flatten = L :=
  fgetsChunksAux_lines L L.flatten.length h le_rfl

/-- The rewrite loop replaces every chunk matching the prefix and copies
all other chunks verbatim; the flag is set exactly when some chunk
matched. -/
theorem editChunks_eq (pfx repl : List Char) : ∀ L : List (List Char),
    editChunks pfx repl L =
      ((L.map (fun c => if pfx.isPrefixOf c then repl else c)).flatten,
        L.any (fun c => pfx.isPrefixOf c)) := by
  intro L
  induction L with
  | nil => simp [editChunks]
  | cons c rest ih =>
    by_cases hc : pfx.isPrefixOf c
    · simp [editChunks, ih, hc, List.isPrefixOf_iff_prefix.mp hc]
    · have hnp : ¬ pfx <+: c := fun h => hc (List.isPrefixOf_iff_prefix.mpr h)
      simp [editChunks, ih, hc, hnp]

/-- A successful literal-prefix match means the input starts with the
key. -/
theorem stripPfx_append : ∀ k c r, stripPfx k c = some r → c = k ++ r := by
  intro k
  induction k with
  | nil =>
    intro c r h
    simp [stripPfx] at h
    simp [h]
  | cons k0 ks ih =>
    intro c r h
    cases c with
    | nil => simp [stripPfx] at h
    | cons c0 ct =>
      by_cases hk : k0 = c0
      · rw [stripPfx, if_pos hk] at h
        rw [List.cons_append, ← hk, ih ct r h]
      · rw [stripPfx, if_neg hk] at h
        exact absurd h (by simp)

/-- A successful key scan starts with a successful literal match. -/
theorem scanKeyFloat_strip (k c : List Char) (v : Frac) (h : scanKeyFloat k c = some v) :
    ∃ r, stripPfx k c = some r := by
  cases hs : stripPfx k c with
  | none => rw [scanKeyFloat, hs] at h; exact absurd h (by simp)
  | some r => exact ⟨r, rfl⟩

/-- Two same-length distinct keys cannot both scan the same line: the
subject-grade `sscanf` formats are mutually exclusive. -/
theorem scanKey_excl (ki kj c : List Char) (v : Frac) (hlen : ki.length = kj.length)
    (hne : ki ≠ kj) (hi : scanKeyFloat ki c = some v) : scanKeyFloat kj c = none := by
  cases hj : scanKeyFloat kj c with
  | none => rfl
  | some w =>
    obtain ⟨r, hr⟩ := scanKeyFloat_strip ki c v hi
    obtain ⟨r', hr'⟩ := scanKeyFloat_strip kj c w hj
    have e1 := stripPfx_append _ _ _ hr
    have e2 := stripPfx_append _ _ _ hr'
    exact absurd (List.append_inj (e1 ▸ e2) hlen).1 hne

/-- Last-in-fold description of one component of a fold over a list with
a new head element prepended. -/
theorem getLast?_cons_getD {α : Type} (a x : α) (l : List α) :
    ((a :: l).getLast?).getD x = (l.getLast?).getD a := by
  cases l with
  | nil => rfl
  | cons b t => rw [List.getLast?_cons_cons]; cases h : (b :: t).getLast? <;> simp_all

/-- The grade-scan fold keeps, for each subject key, the value of the
last chunk that its `sscanf` accepts, and its found flag records whether
any chunk was accepted. -/
theorem scan_foldl (L : List (List Char)) : ∀ s0 : GradeScan,
    ((L.foldl scanStep s0).g1 = ((L.filterMap (scanKeyFloat key1)).getLast?).getD s0.g1
      ∧ (L.foldl scanStep s0).have1
          = (s0.have1 || !(L.filterMap (scanKeyFloat key1)).isEmpty))
    ∧ ((L.foldl scanStep s0).g2 = ((L.filterMap (scanKeyFloat key2)).getLast?).getD s0.g2
      ∧ (L.foldl scanStep s0).have2
          = (s0.have2 || !(L.filterMap (scanKeyFloat key2)).isEmpty))
    ∧ ((L.foldl scanStep s0).g3 = ((L.filterMap (scanKeyFloat key3)).getLast?).getD s0.g3
      ∧ (L.foldl scanStep s0).have3
          = (s0.have3 || !(L.filterMap (scanKeyFloat key3)).isEmpty))
    ∧ ((L.foldl scanStep s0).g4 = ((L.filterMap (scanKeyFloat key4)).getLast?).getD s0.g4
      ∧ (L.foldl scanStep s0).have4
          = (s0.have4 || !(L.filterMap (scanKeyFloat key4)).isEmpty)) := by
  induction L with
  | nil => intro s0; simp
  | cons c L' ih =>
    intro s0
    cases h1 : scanKeyFloat key1 c with
    | some v =>
      have hx2 := scanKey_excl key1 key2 c v (by decide) (by decide) h1
      have hx3 := scanKey_excl key1 key3 c v (by decide) (by decide) h1
      have hx4 := scanKey_excl key1 key4 c v (by decide) (by decide) h1
      have hstep : scanStep s0 c = { s0 with g1 := v, have1 := true } := by
        rw [scanStep, h1]
      simp only [List.foldl_cons, hstep, List.filterMap_cons, h1, hx2, hx3, hx4]
      have := ih { s0 with g1 := v, have1 := true }
      simp only [this, getLast?_cons_getD]
      simp
    | none =>
      cases h2 : scanKeyFloat key2 c with
      | some v =>
        have hx3 := scanKey_excl key2 key3 c v (by decide) (by decide) h2
        have hx4 := scanKey_excl key2 key4 c v (by decide) (by decide) h2
        have hstep : scanStep s0 c = { s0 with g2 := v, have2 := true } := by
          rw [scanStep, h1, h2]
        simp only [List.foldl_cons, hstep, List.filterMap_cons, h1, h2, hx3, hx4]
        have := ih { s0 with g2 := v, have2 := true }
        simp only [this, getLast?_cons_getD]
        simp
      | none =>
        cases h3 : scanKeyFloat key3 c with
        | some v =>
          have hx4 := scanKey_excl key3 key4 c v (by decide) (by decide) h3
          have hstep : scanStep s0 c = { s0 with g3 := v, have3 := true } := by
            rw [scanStep, h1, h2, h3]
          simp only [List.foldl_cons, hstep, List.filterMap_cons, h1, h2, h3, hx4]
          have := ih { s0 with g3 := v, have3 := true }
          simp only [this, getLast?_cons_getD]
          simp
        | none =>
          cases h4 : scanKeyFloat key4 c with
          | some v =>
            have hstep : scanStep s0 c = { s0 with g4 := v, have4 := true } := by
              rw [scanStep, h1, h2, h3, h4]
            simp only [List.foldl_cons, hstep, List.filterMap_cons, h1, h2, h3, h4]
            have := ih { s0 with g4 := v, have4 := true }
            simp only [this, getLast?_cons_getD]
            simp
          | none =>
            have hstep : scanStep s0 c = s0 := by
              rw [scanStep, h1, h2, h3, h4]
            simp only [List.foldl_cons, hstep, List.filterMap_cons, h1, h2, h3, h4]
            exact ih s0

/-- Exponent application preserves positive denominators. -/
theorem parseExp_den_pos (mant : Frac) (s : List Char) (h : 0 < mant.den) :
    0 < (parseExp mant s).1.den := by
  cases s with
  | nil => simpa [parseExp]
  | cons c r =>
    rw [parseExp]
    by_cases he : c = 'e' ∨ c = 'E'
    · rw [if_pos he]
      by_cases hed : (expSignSplit r).2.takeWhile isDigitChar = []
      · simpa [hed]
      · rw [if_neg hed]
        cases hneg : (expSignSplit r).1
        · simpa [Frac.scale10, hneg] using h
        · simp only [Frac.scale10, hneg, if_pos]
          exact Nat.mul_pos h (pow_pos (by norm_num) _)
    · simpa [if_neg he]

/-- Every value produced by the float parser has a positive
denominator. -/
theorem parseCFloat_den_pos (s : List Char) (v : Frac) (r : List Char)
    (h : parseCFloat s = some (v, r)) : 0 < v.den := by
  by_cases hz :
      ((signSplit s).2.takeWhile isDigitChar).length
        + (fracSplit ((signSplit s).2.dropWhile isDigitChar)).1.length = 0
  · simp [parseCFloat, hz] at h
  · have h' : parseExp
        ⟨(signSplit s).1 *
          ((digitsVal ((signSplit s).2.takeWhile isDigitChar) : ℤ)
              * 10 ^ (fracSplit ((signSplit s).2.dropWhile isDigitChar)).1.length
            + digitsVal (fracSplit ((signSplit s).2.dropWhile isDigitChar)).1),
          10 ^ (fracSplit ((signSplit s).2.dropWhile isDigitChar)).1.length⟩
        (fracSplit ((signSplit s).2.dropWhile isDigitChar)).2 = (v, r) := by
      simpa [parseCFloat, hz] using h
    have hpos := parseExp_den_pos
        ⟨(signSplit s).1 *
          ((digitsVal ((signSplit s).2.takeWhile isDigitChar) : ℤ)
              * 10 ^ (fracSplit ((signSplit s).2.dropWhile isDigitChar)).1.length
            + digitsVal (fracSplit ((signSplit s).2.dropWhile isDigitChar)).1),
          10 ^ (fracSplit ((signSplit s).2.dropWhile isDigitChar)).1.length⟩
        (fracSplit ((signSplit s).2.dropWhile isDigitChar)).2
        (pow_pos (by norm_num) _)
    rw [h'] at hpos
    exact hpos

/-- Every value produced by a key scan has a positive denominator. -/
theorem scanKeyFloat_den_pos (k c : List Char) (v : Frac)
    (h : scanKeyFloat k c = some v) : 0 < v.den := by
  cases hs : stripPfx k c with
  | none => simp [scanKeyFloat, hs] at h
  | some r1 =>
    cases hd : r1.dropWhile isWSChar with
    | nil => simp [scanKeyFloat, hs, hd] at h
    | cons c0 r3 =>
      by_cases he : c0 = '='
      · cases hp : parseCFloat (r3.dropWhile isWSChar) with
        | none => simp [scanKeyFloat, hs, hd, he, hp] at h
        | some pr =>
          have hv : pr.1 = v := by
            simpa [scanKeyFloat, hs, hd, he, hp] using h
          rw [← hv]
          exact parseCFloat_den_pos _ _ _ (by rw [hp])
      · simp [scanKeyFloat, hs, hd, he] at h

/-- Denominator positivity for all four components of a grade scan. -/
def scanDenPos (st : GradeScan) : Prop :=
  0 < st.g1.den ∧ 0 < st.g2.den ∧ 0 < st.g3.den ∧ 0 < st.g4.den

/-- One scan step preserves denominator positivity. -/
theorem scanStep_den_pos (st : GradeScan) (c : List Char) (h : scanDenPos st) :
    scanDenPos (scanStep st c) := by
  rw [scanStep]
  cases h1 : scanKeyFloat key1 c with
  | some v => exact ⟨scanKeyFloat_den_pos _ _ _ h1, h.2.1, h.2.2.1, h.2.2.2⟩
  | none =>
    cases h2 : scanKeyFloat key2 c with
    | some v => exact ⟨h.1, scanKeyFloat_den_pos _ _ _ h2, h.2.2.1, h.2.2.2⟩
    | none =>
      cases h3 : scanKeyFloat key3 c with
      | some v => exact ⟨h.1, h.2.1, scanKeyFloat_den_pos _ _ _ h3, h.2.2.2⟩
      | none =>
        cases h4 : scanKeyFloat key4 c with
        | some v => exact ⟨h.1, h.2.1, h.2.2.1, scanKeyFloat_den_pos _ _ _ h4⟩
        | none => exact h

/-- The whole-file grade scan has positive denominators throughout. -/
theorem scanGrades_den_pos (cs : List Char) : scanDenPos (scanGrades cs) := by
  rw [scanGrades]
  have : ∀ (L : List (List Char)) (st : GradeScan), scanDenPos st →
      scanDenPos (L.foldl scanStep st) := by
    intro L
    induction L with
    | nil => intro st h; exact h
    | cons c L' ih => intro st h; exact ih _ (scanStep_den_pos st c h)
  exact this _ initScan (by refine ⟨?_, ?_, ?_, ?_⟩ <;> norm_num [initScan])

/-- The fraction computed by the average step interprets as the exact
arithmetic mean of the four scanned grades. -/
theorem meanGrades_toRat (st : GradeScan) (h : scanDenPos st) :
    (meanGrades st).toRat = (st.g1.toRat + st.g2.toRat + st.g3.toRat + st.g4.toRat) / 4 := by
  obtain ⟨h1, h2, h3, h4⟩ := h
  have d1 : (st.g1.den : ℚ) ≠ 0 := Nat.cast_ne_zero.mpr (by omega)
  have d2 : (st.g2.den : ℚ) ≠ 0 := Nat.cast_ne_zero.mpr (by omega)
  have d3 : (st.g3.den : ℚ) ≠ 0 := Nat.cast_ne_zero.mpr (by omega)
  have d4 : (st.g4.den : ℚ) ≠ 0 := Nat.cast_ne_zero.mpr (by omega)
  rw [meanGrades, Frac.divNat, Frac.add, Frac.add, Frac.add, Frac.toRat, Frac.toRat,
    Frac.toRat, Frac.toRat, Frac.toRat]
  push_cast
  field_simp

/-- Newline count of a concatenation of lines. -/
theorem count_flatten_char (a : Char) : ∀ L : List (List Char),
    L.flatten.count a = (L.map (fun l => l.count a)).sum := by
  intro L
  induction L with
  | nil => rfl
  | cons l L' ih =>
    have hjc : (l :: L').flatten = l ++ L'.flatten := rfl
    rw [hjc, List.count_append, ih, List.map_cons, List.sum_cons]

/-- A block of characters all satisfying the predicate is skipped by
`dropWhile` before the rest is processed. -/
theorem dropWhile_append_of_all (p : Char → Bool) (a b : List Char)
    (h : ∀ c ∈ a, p c = true) : (a ++ b).dropWhile p = b.dropWhile p := by
  induction a with
  | nil => rfl
  | cons x a' ih =>
    simp only [List.cons_append, List.dropWhile_cons, h x (List.mem_cons_self _ _)]
    exact ih (fun c hc => h c (List.mem_cons_of_mem _ hc))

/-- Appending a slash-free suffix to a path does not change its
directory. -/
theorem dirName_append (pp s : List Char) (hs : ∀ c ∈ s, c ≠ '/') :
    dirName (pp ++ s) = dirName pp := by
  rw [dirName, dirName, List.reverse_append]
  rw [dropWhile_append_of_all _ s.reverse pp.reverse
    (fun c hc => decide_eq_true (hs c (List.mem_reverse.mp hc)))]

/-- A slash-free path lives in the current working directory. -/
theorem dirName_of_noslash (l : List Char) (h : ∀ c ∈ l, c ≠ '/') : dirName l = ['.'] := by
  have hd : l.reverse.dropWhile (fun c => c ≠ '/') = [] := by
    have := dropWhile_append_of_all (fun c => decide (c ≠ '/')) l.reverse []
      (fun c hc => decide_eq_true (h c (List.mem_reverse.mp hc)))
    simpa using this
  rw [dirName, if_pos hd]

/-- The decimal rendering of an integer contains no slash. -/
theorem intToDec_noslash (i : ℤ) : ∀ c ∈ intToDec i, c ≠ '/' := by
  intro c hc
  rw [intToDec] at hc
  by_cases hi : i < 0
  · rw [if_pos hi] at hc
    rcases List.mem_cons.mp hc with h | h
    · subst h; decide
    · obtain ⟨d, hd, rfl⟩ := natToDec_mem _ _ h
      exact (digitChar_props d hd).2.2.2.2.2.1
  · rw [if_neg hi] at hc
    obtain ⟨d, hd, rfl⟩ := natToDec_mem _ _ hc
    exact (digitChar_props d hd).2.2.2.2.2.1

/-- A list with a last element is nonempty. -/
theorem isEmpty_false_of_getLast? {α : Type} (l : List α) (v : α)
    (h : l.getLast? = some v) : l.isEmpty = false := by
  cases l with
  | nil => simp at h
  | cons a t => rfl

/-- C3 counterexample: on a record with two `NAME` lines, the field
update rewrites both of them, so the later duplicate is not copied
verbatim as the claim states. -/
theorem c3_counterexample :
    (editLoop "NAME = ".data "NAME = c\n".data "NAME = a\nNAME = b\n".data).1
        = "NAME = c\nNAME = c\n".data
    ∧ (editLoop "NAME = ".data "NAME = c\n".data "NAME = a\nNAME = b\n".data).1
        ≠ "NAME = c\nNAME = b\n".data := by
  decide

/-- C3 (amended): the field-update loop replaces every line (as read in
`fgets` chunks) that begins with the key prefix — not only the first —
and copies every non-matching chunk byte-for-byte verbatim; the found
flag is set exactly when some chunk matched. -/
theorem c3_update_replaces_every_match (pfx repl cs : List Char) :
    (editLoop pfx repl cs).1
      = ((fgetsChunks cs).map (fun c => if pfx.isPrefixOf c then repl else c)).flatten
    ∧ (editLoop pfx repl cs).2 = (fgetsChunks cs).any (fun c => pfx.isPrefixOf c) := by
  rw [editLoop, editChunks_eq]
  exact ⟨rfl, rfl⟩

/-- C4: on a record file whose scan misses at least one subject grade,
the recompute returns the failure code and leaves the file system
untouched, whatever the injected failure flags. -/
theorem c4_missing_fields_read_only (fs : FS) (f : String) (cs : List Char)
    (t r n : Bool) (hf : fsLookup fs f = some cs)
    (hmiss : ((scanGrades cs).have1 && (scanGrades cs).have2 && (scanGrades cs).have3
        && (scanGrades cs).have4) = false) :
    recompute_average_grade fs f t r n = (fs, -1) := by
  have hrc : recomputeContent cs = none := by
    rw [recomputeContent]
    simp [hmiss]
  simp [recompute_average_grade, hf, hrc]

/-- C4 witness: a concrete record missing `SUBJECT4_GRADE` is left
byte-identical and the call fails. -/
theorem c4_witness :
    recompute_average_grade
        [("data/students/output_2.txt",
          "SUBJECT1_GRADE = 80.00\nSUBJECT2_GRADE = 90.00\nSUBJECT3_GRADE = 70.00\nAVERAGE_GRADE = 0.00\n".data)]
        "data/students/output_2.txt" false false false
      = ([("data/students/output_2.txt",
          "SUBJECT1_GRADE = 80.00\nSUBJECT2_GRADE = 90.00\nSUBJECT3_GRADE = 70.00\nAVERAGE_GRADE = 0.00\n".data)], -1) :=
  c4_missing_fields_read_only _ _
    "SUBJECT1_GRADE = 80.00\nSUBJECT2_GRADE = 90.00\nSUBJECT3_GRADE = 70.00\nAVERAGE_GRADE = 0.00\n".data
    false false false (by decide) (by decide)

/-- C8: loading the counter at a missing path creates it seeded with
`1` and returns `1`; at a path whose content the `%d` scan rejects, or
parses below `1`, it returns `1` without touching the file system. -/
theorem c8_load_counter (fs : FS) (p : String) (cs : List Char) (v : ℤ) :
    (fsLookup fs p = none → load_student_data fs p = (fsWrite fs p ['1', '\n'], 1))
    ∧ (fsLookup fs p = some cs → parseCInt cs = none →
        load_student_data fs p = (fs, 1))
    ∧ (fsLookup fs p = some cs → parseCInt cs = some v → v < 1 →
        load_student_data fs p = (fs, 1)) := by
  refine ⟨?_, ?_, ?_⟩
  · intro h
    simp [load_student_data, h]
  · intro h hp
    simp [load_student_data, h, hp]
  · intro h hp hv
    simp [load_student_data, h, hp, hv]

/-- C8 witness: the three concrete cases — missing file, non-numeric
content, and a below-1 value. -/
theorem c8_witness :
    load_student_data [] "data/next_id.txt" = ([("data/next_id.txt", ['1', '\n'])], 1)
    ∧ load_student_data [("data/next_id.txt", "abc\n".data)] "data/next_id.txt"
        = ([("data/next_id.txt", "abc\n".data)], 1)
    ∧ load_student_data [("data/next_id.txt", "-5\n".data)] "data/next_id.txt"
        = ([("data/next_id.txt", "-5\n".data)], 1) := by
  refine ⟨?_, ?_, ?_⟩
  · exact (c8_load_counter [] "data/next_id.txt" [] 0).1 (by decide)
  · exact (c8_load_counter [("data/next_id.txt", "abc\n".data)] "data/next_id.txt"
      "abc\n".data 0).2.1 (by decide) (by decide)
  · exact (c8_load_counter [("data/next_id.txt", "-5\n".data)] "data/next_id.txt"
      "-5\n".data (-5)).2.2 (by decide) (by decide) (by decide)

/-- C10: when subject-grade keys occur on several lines, the scan keeps
the value of the last line each key's `sscanf` accepts, and the mean is
formed from those last values. -/
theorem c10_last_occurrence_wins (cs : List Char) (v1 v2 v3 v4 : Frac)
    (h1 : ((fgetsChunks cs).filterMap (scanKeyFloat key1)).getLast? = some v1)
    (h2 : ((fgetsChunks cs).filterMap (scanKeyFloat key2)).getLast? = some v2)
    (h3 : ((fgetsChunks cs).filterMap (scanKeyFloat key3)).getLast? = some v3)
    (h4 : ((fgetsChunks cs).filterMap (scanKeyFloat key4)).getLast? = some v4) :
    (scanGrades cs).g1 = v1 ∧ (scanGrades cs).g2 = v2 ∧ (scanGrades cs).g3 = v3
    ∧ (scanGrades cs).g4 = v4
    ∧ (scanGrades cs).have1 = true ∧ (scanGrades cs).have2 = true
    ∧ (scanGrades cs).have3 = true ∧ (scanGrades cs).have4 = true
    ∧ meanGrades (scanGrades cs) = (((v1.add v2).add v3).add v4).divNat 4 := by
  have hs := scan_foldl (fgetsChunks cs) initScan
  rw [scanGrades]
  obtain ⟨⟨e1, f1⟩, ⟨e2, f2⟩, ⟨e3, f3⟩, ⟨e4, f4⟩⟩ := hs
  have g1 : (List.foldl scanStep initScan (fgetsChunks cs)).g1 = v1 := by rw [e1, h1]; rfl
  have g2 : (List.foldl scanStep initScan (fgetsChunks cs)).g2 = v2 := by rw [e2, h2]; rfl
  have g3 : (List.foldl scanStep initScan (fgetsChunks cs)).g3 = v3 := by rw [e3, h3]; rfl
  have g4 : (List.foldl scanStep initScan (fgetsChunks cs)).g4 = v4 := by rw [e4, h4]; rfl
  refine ⟨g1, g2, g3, g4, ?_, ?_, ?_, ?_, ?_⟩
  · rw [f1, isEmpty_false_of_getLast? _ _ h1]; rfl
  · rw [f2, isEmpty_false_of_getLast? _ _ h2]; rfl
  · rw [f3, isEmpty_false_of_getLast? _ _ h3]; rfl
  · rw [f4, isEmpty_false_of_getLast? _ _ h4]; rfl
  · rw [meanGrades, g1, g2, g3, g4]

/-- C10 witness: with two `SUBJECT1_GRADE` lines the scan uses the later
value 20, not the earlier 10. -/
theorem c10_witness :
    (scanGrades "SUBJECT1_GRADE = 10\nSUBJECT1_GRADE = 20\nSUBJECT2_GRADE = 30\nSUBJECT3_GRADE = 40\nSUBJECT4_GRADE = 50\n".data).g1
      = ⟨20, 1⟩
    ∧ (scanGrades "SUBJECT1_GRADE = 10\nSUBJECT1_GRADE = 20\nSUBJECT2_GRADE = 30\nSUBJECT3_GRADE = 40\nSUBJECT4_GRADE = 50\n".data).g1
      ≠ ⟨10, 1⟩ := by
  have h := c10_last_occurrence_wins
    "SUBJECT1_GRADE = 10\nSUBJECT1_GRADE = 20\nSUBJECT2_GRADE = 30\nSUBJECT3_GRADE = 40\nSUBJECT4_GRADE = 50\n".data
    ⟨20, 1⟩ ⟨30, 1⟩ ⟨40, 1⟩ ⟨50, 1⟩ (by decide) (by decide) (by decide) (by decide)
  exact ⟨h.1, by rw [h.1]; decide⟩

/-- C9 counterexample: for student id 5 the edit temp file `temp_5.txt`
lives in the working directory, not alongside the record in
`data/students`, refuting the claim for the field updater. -/
theorem c9_counterexample :
    dirName (editTempName 5).data = ['.']
    ∧ dirName (studentFilename 5).data = "data/students".data
    ∧ dirName (editTempName 5).data ≠ dirName (studentFilename 5).data := by
  decide

/-- C9 (amended): the counter store and the average recompute do create
their temp files alongside the target (suffix-derived sibling paths),
but the field updater's temp `temp_<id>.txt` is always in the current
working directory. -/
theorem c9_temp_location (p : String) (id : ℤ) :
    dirName (tmpPath p ".tmp".data).data = dirName p.data
    ∧ dirName (tmpPath p ".avgtmp".data).data = dirName p.data
    ∧ dirName (editTempName id).data = ['.'] := by
  refine ⟨?_, ?_, ?_⟩
  · exact dirName_append p.data _ (by intro c hc; fin_cases hc <;> decide)
  · exact dirName_append p.data _ (by intro c hc; fin_cases hc <;> decide)
  · apply dirName_of_noslash
    intro c hc
    rcases List.mem_append.mp hc with h | h
    · fin_cases h <;> decide
    · rcases List.mem_append.mp h with h' | h'
      · exact intToDec_noslash id c h'
      · fin_cases h' <;> decide

/-- C1 counterexample: with all four grades present, if the `remove` of
the original succeeds but the `rename` of the temp fails, the recompute
deletes the temp as well: the record path is left missing and its
content is lost, contradicting the pre-or-post-state guarantee. -/
theorem c1_counterexample :
    recompute_average_grade [("data/students/output_9.txt", gradeFile)]
        "data/students/output_9.txt" false false true = ([], -1) := by
  decide

/-- C5: storing `n ≥ 1` into the counter leaves the file holding exactly
the decimal of `n` plus a newline, leaves no temp file behind, and a
subsequent load returns `n` without touching the file system. -/
theorem c5_counter_roundtrip (fs : FS) (p : String) (n : ℤ) (hn : 1 ≤ n) :
    fsLookup (update_next_id fs p n false false) p = some (intToDec n ++ ['\n'])
    ∧ fsLookup (update_next_id fs p n false false) (tmpPath p ".tmp".data) = none
    ∧ load_student_data (update_next_id fs p n false false) p
        = (update_next_id fs p n false false, n) := by
  have hne := tmpPath_ne p ".tmp".data (by decide)
  have hrepl := lookup_replace fs p (tmpPath p ".tmp".data) (intToDec n ++ ['\n']) hne
  have hupd : update_next_id fs p n false false
      = fsRename (fsRemove (fsWrite fs (tmpPath p ".tmp".data) (intToDec n ++ ['\n'])) p)
          (tmpPath p ".tmp".data) p := rfl
  have hl : fsLookup (update_next_id fs p n false false) p = some (intToDec n ++ ['\n']) := by
    rw [hupd]; exact hrepl.1
  have htmp : fsLookup (update_next_id fs p n false false) (tmpPath p ".tmp".data) = none := by
    rw [hupd]; exact hrepl.2
  refine ⟨hl, htmp, ?_⟩
  have hparse : parseCInt (intToDec n ++ ['\n']) = some n := by
    rw [intToDec, if_neg (by omega : ¬ n < 0), parseCInt,
      parseCIntR_natToDec n.natAbs []]
    simp [Int.natAbs_of_nonneg (by omega : (0:ℤ) ≤ n)]
  simp [load_student_data, hl, hparse, show ¬ n < 1 by omega]

/-- C5 witness: the end-to-end counter example with prior content `7`
and stored value `12345`. -/
theorem c5_witness :
    fsLookup (update_next_id [("data/next_id.txt", "7\n".data)] "data/next_id.txt"
        12345 false false) "data/next_id.txt" = some "12345\n".data
    ∧ fsLookup (update_next_id [("data/next_id.txt", "7\n".data)] "data/next_id.txt"
        12345 false false) (tmpPath "data/next_id.txt" ".tmp".data) = none
    ∧ load_student_data (update_next_id [("data/next_id.txt", "7\n".data)] "data/next_id.txt"
        12345 false false) "data/next_id.txt"
      = (update_next_id [("data/next_id.txt", "7\n".data)] "data/next_id.txt" 12345 false false,
          12345) := by
  have h := c5_counter_roundtrip [("data/next_id.txt", "7\n".data)] "data/next_id.txt"
    12345 (by norm_num)
  exact ⟨h.1.trans (by decide), h.2.1, h.2.2⟩

/-- C7: when no line of the record matches the target key, the edit
reports not-found and the record file content is untouched. -/
theorem c7_absent_key_notfound (fs : FS) (id : ℤ) (choice : ℕ) (nv cs pfx repl : List Char)
    (hid : 1 ≤ id)
    (hpfx : choicePfx choice = some pfx)
    (hrepl : editRepl choice nv = some repl)
    (hcs : fsLookup fs (studentFilename id) = some cs)
    (hnm : (editLoop pfx repl cs).2 = false) :
    (edit_student_fs fs id choice nv false false false).2 = EditResult.notFound
    ∧ fsLookup (edit_student_fs fs id choice nv false false false).1 (studentFilename id)
        = some cs := by
  have hfinal : edit_student_fs fs id choice nv false false false
      = (fsRemove (fsWrite fs (editTempName id) (editLoop pfx repl cs).1) (editTempName id),
          EditResult.notFound) := by
    simp [edit_student_fs, show ¬ id < 1 by omega, hpfx, hrepl, hcs, hnm]
  rw [hfinal]
  have hne : studentFilename id ≠ editTempName id := studentFilename_ne_editTempName id
  refine ⟨rfl, ?_⟩
  rw [fsLookup_fsRemove, if_neg hne, fsLookup_fsWrite, if_neg (Ne.symm hne)]
  exact hcs

/-- C7 witness: editing the `NAME` field of a record that has only a
`DOB` line reports not-found and leaves the record intact. -/
theorem c7_witness :
    (edit_student_fs [(studentFilename 1, "DOB = x\n".data)] 1 1 "al".data
        false false false).2 = EditResult.notFound
    ∧ fsLookup (edit_student_fs [(studentFilename 1, "DOB = x\n".data)] 1 1 "al".data
        false false false).1 (studentFilename 1) = some "DOB = x\n".data :=
  c7_absent_key_notfound [(studentFilename 1, "DOB = x\n".data)] 1 1 "al".data
    "DOB = x\n".data "NAME = ".data "NAME = al\n".data
    (by norm_num) (by decide) (by decide) (by decide) (by decide)

/-- A map that fixes every element of a list is the identity on it. -/
theorem map_id_of_eq {α : Type} (l : List α) (f : α → α) (h : ∀ a ∈ l, f a = a) :
    l.map f = l := by
  induction l with
  | nil => rfl
  | cons a t ih =>
    rw [List.map_cons, h a (List.mem_cons_self _ _),
      ih (fun b hb => h b (List.mem_cons_of_mem _ hb))]

/-- A sum of ones over a list counts its length. -/
theorem sum_ones_eq_length {α : Type} (l : List α) (f : α → ℕ) (h : ∀ a ∈ l, f a = 1) :
    (l.map f).sum = l.length := by
  induction l with
  | nil => rfl
  | cons a t ih =>
    rw [List.map_cons, List.sum_cons, h a (List.mem_cons_self _ _),
      ih (fun b hb => h b (List.mem_cons_of_mem _ hb)), List.length_cons]
    omega

/-- C6 counterexample: a record whose single `NAME` line is longer than
the 511-byte `fgets` window is split into two chunks; replacing the
first chunk appends a newline, so a successful update grows the line
count from 1 to 2. -/
theorem c6_counterexample :
    (edit_student_fs [(studentFilename 1, longNameLine)] 1 1 "v".data false false false).2
      = EditResult.ok
    ∧ fsLookup (edit_student_fs [(studentFilename 1, longNameLine)] 1 1 "v".data
        false false false).1 (studentFilename 1) = some "NAME = v\na\n".data
    ∧ longNameLine.count '\n' = 1
    ∧ ("NAME = v\na\n".data).count '\n' = 2 := by
  refine ⟨by decide, by decide, by decide, by decide⟩

/-- C6 (amended): on a record all of whose lines fit the 512-byte read
buffer, a field update whose replacement is a single line preserves the
newline count exactly when the key is present, and leaves the content
byte-identical when the key is absent. -/
theorem c6_line_count_preserved (pfx repl : List Char) (L : List (List Char))
    (hL : ∀ l ∈ L, properLine l) (hrepl : repl.count '\n' = 1) :
    ((editLoop pfx repl L.flatten).2 = true →
      (editLoop pfx repl L.flatten).1.count '\n' = L.flatten.count '\n')
    ∧ ((editLoop pfx repl L.flatten).2 = false →
      (editLoop pfx repl L.flatten).1 = L.flatten) := by
  have hchunks : fgetsChunks L.flatten = L := fgetsChunks_lines L hL
  have hloop := c3_update_replaces_every_match pfx repl L.flatten
  have hone : ∀ l ∈ L, l.count '\n' = 1 := fun l hl => (hL l hl).1
  constructor
  · intro _
    rw [hloop.1, hchunks, count_flatten_char, count_flatten_char, List.map_map]
    rw [sum_ones_eq_length L _ (fun l hl => by
      by_cases hm : pfx.isPrefixOf l <;> simp [Function.comp, hm, hrepl, hone l hl])]
    rw [sum_ones_eq_length L _ hone]
  · intro hflag
    rw [hloop.2, hchunks] at hflag
    rw [hloop.1, hchunks, map_id_of_eq L _ (fun l hl => by
      have hb := List.any_eq_false.mp hflag l hl
      have : pfx.isPrefixOf l = false := Bool.eq_false_iff.mpr hb
      simp [this])]

/-- C6 witness: a two-line record with short lines keeps its newline
count across a successful `NAME` update. -/
theorem c6_witness :
    (editLoop "NAME = ".data "NAME = xy\n".data
        (["NAME = a\n".data, "DOB = b\n".data]).flatten).1.count '\n'
      = (["NAME = a\n".data, "DOB = b\n".data]).flatten.count '\n' := by
  have h := c6_line_count_preserved "NAME = ".data "NAME = xy\n".data
    ["NAME = a\n".data, "DOB = b\n".data]
    (by intro l hl; fin_cases hl <;> decide) (by decide)
  exact h.1 (by decide)

/-- C1 (amended): when the remove and rename steps succeed, each replace
operation leaves the target path fully in its post-call state (counter:
the new id; recompute: the rewritten content; field update: the rewritten
record) with no partial content ever installed; failures before the
original is removed (temp-open failure, or a failed remove during
recompute) leave the target in its full pre-call state.  The guarantee
does not survive a rename failure after a successful remove, as the
counterexample shows. -/
theorem c1_replace_outcomes (fs : FS) (p f : String) (n id : ℤ) (choice : ℕ)
    (nv pfx repl cs csf out : List Char)
    (hid : 1 ≤ id)
    (hcsf : fsLookup fs f = some csf)
    (hout : recomputeContent csf = some out)
    (hpfx : choicePfx choice = some pfx)
    (hrepl : editRepl choice nv = some repl)
    (hns : choice < 8)
    (hcs : fsLookup fs (studentFilename id) = some cs)
    (hupd : (editLoop pfx repl cs).2 = true) :
    fsLookup (update_next_id fs p n false false) p = some (intToDec n ++ ['\n'])
    ∧ fsLookup (update_next_id fs p n false false) (tmpPath p ".tmp".data) = none
    ∧ (recompute_average_grade fs f false false false).2 = 0
    ∧ fsLookup (recompute_average_grade fs f false false false).1 f = some out
    ∧ (∀ b c : Bool, (recompute_average_grade fs f true b c).1 = fs)
    ∧ fsLookup (recompute_average_grade fs f false true false).1 f = some csf
    ∧ (edit_student_fs fs id choice nv true false false).1 = fs
    ∧ fsLookup (edit_student_fs fs id choice nv false false false).1 (studentFilename id)
        = some (editLoop pfx repl cs).1 := by
  have hneP := tmpPath_ne p ".tmp".data (by decide)
  have hreplP := lookup_replace fs p (tmpPath p ".tmp".data) (intToDec n ++ ['\n']) hneP
  have hupdEq : update_next_id fs p n false false
      = fsRename (fsRemove (fsWrite fs (tmpPath p ".tmp".data) (intToDec n ++ ['\n'])) p)
          (tmpPath p ".tmp".data) p := rfl
  have hneF := tmpPath_ne f ".avgtmp".data (by decide)
  have hcompR : recompute_average_grade fs f false false false
      = (fsRename (fsRemove (fsWrite fs (tmpPath f ".avgtmp".data) out) f)
          (tmpPath f ".avgtmp".data) f, 0) := by
    simp [recompute_average_grade, hcsf, hout]
  have hcompRm : recompute_average_grade fs f false true false
      = (fsRemove (fsWrite fs (tmpPath f ".avgtmp".data) out) (tmpPath f ".avgtmp".data), -1) := by
    simp [recompute_average_grade, hcsf, hout]
  have hnsOr : ¬ (choice = 8 ∨ choice = 9 ∨ choice = 10 ∨ choice = 11) := by omega
  have hneE : editTempName id ≠ studentFilename id :=
    Ne.symm (studentFilename_ne_editTempName id)
  have hcompE : edit_student_fs fs id choice nv false false false
      = (fsRename (fsRemove (fsWrite fs (editTempName id) (editLoop pfx repl cs).1)
          (studentFilename id)) (editTempName id) (studentFilename id), EditResult.ok) := by
    simp [edit_student_fs, show ¬ id < 1 by omega, hpfx, hrepl, hcs, hupd, hnsOr]
  refine ⟨?_, ?_, ?_, ?_, ?_, ?_, ?_, ?_⟩
  · rw [hupdEq]; exact hreplP.1
  · rw [hupdEq]; exact hreplP.2
  · rw [hcompR]
  · rw [hcompR]
    exact (lookup_replace fs f (tmpPath f ".avgtmp".data) out hneF).1
  · intro b c
    simp [recompute_average_grade, hcsf, hout]
  · rw [hcompRm]
    rw [fsLookup_fsRemove, if_neg (fun h => hneF h.symm), fsLookup_fsWrite,
      if_neg hneF]
    exact hcsf
  · simp [edit_student_fs, show ¬ id < 1 by omega, hpfx, hrepl, hcs]
  · rw [hcompE]
    exact (lookup_replace fs (studentFilename id) (editTempName id)
      (editLoop pfx repl cs).1 hneE).1

/-- C1 witness: the replace outcomes at a concrete store, recompute and
edit on the same record. -/
theorem c1_witness :
    fsLookup (update_next_id [(studentFilename 1, nameGradeFile)] "data/next_id.txt"
        5 false false) "data/next_id.txt" = some (intToDec 5 ++ ['\n'])
    ∧ fsLookup (update_next_id [(studentFilename 1, nameGradeFile)] "data/next_id.txt"
        5 false false) (tmpPath "data/next_id.txt" ".tmp".data) = none
    ∧ (recompute_average_grade [(studentFilename 1, nameGradeFile)] (studentFilename 1)
        false false false).2 = 0
    ∧ fsLookup (recompute_average_grade [(studentFilename 1, nameGradeFile)]
        (studentFilename 1) false false false).1 (studentFilename 1) = some nameGradeFileOut
    ∧ (∀ b c : Bool, (recompute_average_grade [(studentFilename 1, nameGradeFile)]
        (studentFilename 1) true b c).1 = [(studentFilename 1, nameGradeFile)])
    ∧ fsLookup (recompute_average_grade [(studentFilename 1, nameGradeFile)]
        (studentFilename 1) false true false).1 (studentFilename 1) = some nameGradeFile
    ∧ (edit_student_fs [(studentFilename 1, nameGradeFile)] 1 1 "al".data true false false).1
        = [(studentFilename 1, nameGradeFile)]
    ∧ fsLookup (edit_student_fs [(studentFilename 1, nameGradeFile)] 1 1 "al".data
        false false false).1 (studentFilename 1)
        = some (editLoop "NAME = ".data "NAME = al\n".data nameGradeFile).1 :=
  c1_replace_outcomes [(studentFilename 1, nameGradeFile)] "data/next_id.txt"
    (studentFilename 1) 5 1 1 "al".data "NAME = ".data "NAME = al\n".data
    nameGradeFile nameGradeFile nameGradeFileOut
    (by norm_num) (by decide) (by decide) (by decide) (by decide) (by norm_num)
    (by decide) (by decide)

example : scanKeyF32 key1 "SUBJECT1_GRADE = 16777219\n".data
    = some (.fin false ⟨16777220, 1⟩) := by decide

example : recomputeContentF
    "SUBJECT1_GRADE = 0.125\nSUBJECT2_GRADE = 0.125\nSUBJECT3_GRADE = 0.125\nSUBJECT4_GRADE = 0.125\nAVERAGE_GRADE = 0.00\n".data
    = some "SUBJECT1_GRADE = 0.125\nSUBJECT2_GRADE = 0.125\nSUBJECT3_GRADE = 0.125\nSUBJECT4_GRADE = 0.125\nAVERAGE_GRADE = 0.12\n".data := by
  decide

/-- C2 counterexample: the grade 16777219 = 2^24 + 3 is parsed by
`sscanf "%f"` as 16777220.0f (nearest binary32, tie to the even
mantissa), and every later step is exact, so the program installs
`AVERAGE_GRADE = 4194305.00`; the exact arithmetic mean of the four
grade values in the file is 4194304.75, which has an exact two-decimal
rendering, so the claimed line is `AVERAGE_GRADE = 4194304.75` and the
two differ. -/
theorem c2_counterexample :
    fsLookup (recompute_average_gradeF [("data/students/output_3.txt", overPrecFile)]
        "data/students/output_3.txt" false false false).1 "data/students/output_3.txt"
      = some "SUBJECT1_GRADE = 16777219\nSUBJECT2_GRADE = 0\nSUBJECT3_GRADE = 0\nSUBJECT4_GRADE = 0\nAVERAGE_GRADE = 4194305.00\n".data
    ∧ (scanGrades overPrecFile).g1 = ⟨16777219, 1⟩
    ∧ (scanGrades overPrecFile).g2 = ⟨0, 1⟩
    ∧ (scanGrades overPrecFile).g3 = ⟨0, 1⟩
    ∧ (scanGrades overPrecFile).g4 = ⟨0, 1⟩
    ∧ specMeanLine ⟨16777219, 1⟩ ⟨0, 1⟩ ⟨0, 1⟩ ⟨0, 1⟩ = "AVERAGE_GRADE = 4194304.75\n".data
    ∧ ("AVERAGE_GRADE = 4194305.00\n".data : List Char) ≠ "AVERAGE_GRADE = 4194304.75\n".data := by
  refine ⟨by decide, by decide, by decide, by decide, by decide, by decide, by decide⟩

/-- C2 (amended): with all four subject grades present, the recompute
succeeds and installs the binary32 mean of the binary32-parsed grades —
each parse, each addition and the division by `4.0f` rounding to
nearest, ties to even — formatted by `%.2f` with correct rounding
(decimal ties to even); the unique existing `AVERAGE_GRADE` line is
replaced in place, and when no such line exists the line is appended
exactly once at the end. -/
theorem c2_recompute_writes_float_mean (fs : FS) (f : String) (cs : List Char)
    (hf : fsLookup fs f = some cs)
    (hhave : ((scanGradesF cs).have1 && (scanGradesF cs).have2 && (scanGradesF cs).have3
        && (scanGradesF cs).have4) = true) :
    (recompute_average_gradeF fs f false false false).2 = 0
    ∧ (∀ pre old post, fgetsChunks cs = pre ++ old :: post →
        (∀ l ∈ pre, avgPfx.isPrefixOf l = false) →
        (∀ l ∈ post, avgPfx.isPrefixOf l = false) →
        avgPfx.isPrefixOf old = true →
        fsLookup (recompute_average_gradeF fs f false false false).1 f
          = some (pre.flatten
              ++ ((avgPfx ++ fmt2F32 (meanF32 (scanGradesF cs)) ++ ['\n']) ++ post.flatten)))
    ∧ ((∀ l ∈ fgetsChunks cs, avgPfx.isPrefixOf l = false) →
        fsLookup (recompute_average_gradeF fs f false false false).1 f
          = some (cs ++ (avgPfx ++ fmt2F32 (meanF32 (scanGradesF cs)) ++ ['\n']))) := by
  have hne := tmpPath_ne f ".avgtmp".data (by decide)
  have hrc : recomputeContentF cs
      = some (if (editLoop avgPfx (avgPfx ++ fmt2F32 (meanF32 (scanGradesF cs)) ++ ['\n']) cs).2
          then (editLoop avgPfx (avgPfx ++ fmt2F32 (meanF32 (scanGradesF cs)) ++ ['\n']) cs).1
          else (editLoop avgPfx (avgPfx ++ fmt2F32 (meanF32 (scanGradesF cs)) ++ ['\n']) cs).1
            ++ (avgPfx ++ fmt2F32 (meanF32 (scanGradesF cs)) ++ ['\n'])) := by
    rw [recomputeContentF]
    simp only [hhave, if_pos]
  refine ⟨?_, ?_, ?_⟩
  · simp [recompute_average_gradeF, hf, hrc]
  · intro pre old post hsplit hpre hpost hold
    have hloop := c3_update_replaces_every_match avgPfx
      (avgPfx ++ fmt2F32 (meanF32 (scanGradesF cs)) ++ ['\n']) cs
    have hflag : (editLoop avgPfx (avgPfx ++ fmt2F32 (meanF32 (scanGradesF cs)) ++ ['\n']) cs).2
        = true := by
      rw [hloop.2, hsplit]
      simp [List.any_append, hold]
    have hout : (editLoop avgPfx (avgPfx ++ fmt2F32 (meanF32 (scanGradesF cs)) ++ ['\n']) cs).1
        = pre.flatten
            ++ ((avgPfx ++ fmt2F32 (meanF32 (scanGradesF cs)) ++ ['\n']) ++ post.flatten) := by
      rw [hloop.1, hsplit, List.map_append, List.map_cons, List.flatten_append,
        List.flatten_cons]
      rw [map_id_of_eq pre _ (fun l hl => by simp [hpre l hl]),
        map_id_of_eq post _ (fun l hl => by simp [hpost l hl])]
      simp [hold]
    have hrc2 : recomputeContentF cs
        = some (pre.flatten
            ++ ((avgPfx ++ fmt2F32 (meanF32 (scanGradesF cs)) ++ ['\n']) ++ post.flatten)) := by
      rw [hrc, if_pos hflag, hout]
    have hcomp : recompute_average_gradeF fs f false false false
        = (fsRename
            (fsRemove (fsWrite fs (tmpPath f ".avgtmp".data)
              (pre.flatten
                ++ ((avgPfx ++ fmt2F32 (meanF32 (scanGradesF cs)) ++ ['\n']) ++ post.flatten))) f)
            (tmpPath f ".avgtmp".data) f, 0) := by
      simp [recompute_average_gradeF, hf, hrc2]
    rw [hcomp]
    exact (lookup_replace fs f (tmpPath f ".avgtmp".data) _ hne).1
  · intro hnone
    have hloop := c3_update_replaces_every_match avgPfx
      (avgPfx ++ fmt2F32 (meanF32 (scanGradesF cs)) ++ ['\n']) cs
    have hflag : (editLoop avgPfx (avgPfx ++ fmt2F32 (meanF32 (scanGradesF cs)) ++ ['\n']) cs).2
        = false := by
      rw [hloop.2]
      rw [List.any_eq_false]
      intro l hl
      simp [hnone l hl]
    have hout : (editLoop avgPfx (avgPfx ++ fmt2F32 (meanF32 (scanGradesF cs)) ++ ['\n']) cs).1
        = cs := by
      rw [hloop.1, map_id_of_eq _ _ (fun l hl => by simp [hnone l hl]), fgetsChunks_join]
    have hrc2 : recomputeContentF cs
        = some (cs ++ (avgPfx ++ fmt2F32 (meanF32 (scanGradesF cs)) ++ ['\n'])) := by
      rw [hrc, if_neg (by rw [hflag]; exact Bool.false_ne_true), hout]
    have hcomp : recompute_average_gradeF fs f false false false
        = (fsRename
            (fsRemove (fsWrite fs (tmpPath f ".avgtmp".data)
              (cs ++ (avgPfx ++ fmt2F32 (meanF32 (scanGradesF cs)) ++ ['\n']))) f)
            (tmpPath f ".avgtmp".data) f, 0) := by
      simp [recompute_average_gradeF, hf, hrc2]
    rw [hcomp]
    exact (lookup_replace fs f (tmpPath f ".avgtmp".data) _ hne).1

/-- C2 witness: the end-to-end example — grades 80, 90, 70, 60 are
exact in binary32 at every step, and the stale `AVERAGE_GRADE = 0.00`
line is rewritten in place to `75.00` with the four subject lines
unchanged; on this input the float value agrees with the exact mean. -/
theorem c2_witness :
    fsLookup (recompute_average_gradeF [("data/students/output_7.txt", gradeFile)]
        "data/students/output_7.txt" false false false).1 "data/students/output_7.txt"
      = some "SUBJECT1_GRADE = 80.00\nSUBJECT2_GRADE = 90.00\nSUBJECT3_GRADE = 70.00\nSUBJECT4_GRADE = 60.00\nAVERAGE_GRADE = 75.00\n".data
    ∧ (recompute_average_gradeF [("data/students/output_7.txt", gradeFile)]
        "data/students/output_7.txt" false false false).2 = 0
    ∧ fmt2F32 (meanF32 (scanGradesF gradeFile)) = fmt2 (meanGrades (scanGrades gradeFile)) := by
  have h := c2_recompute_writes_float_mean [("data/students/output_7.txt", gradeFile)]
    "data/students/output_7.txt" gradeFile (by decide) (by decide)
  have h2 := h.2.1
    ["SUBJECT1_GRADE = 80.00\n".data, "SUBJECT2_GRADE = 90.00\n".data,
      "SUBJECT3_GRADE = 70.00\n".data, "SUBJECT4_GRADE = 60.00\n".data]
    "AVERAGE_GRADE = 0.00\n".data []
    (by decide) (by decide) (by decide) (by decide)
  exact ⟨h2.trans (by decide), h.1, by decide⟩
